import Mathlib

/-!
Verification of the bioinformatics repository's core components:
the labeled adjacency-list graph (src/typescript/bioinformatics/Graph.ts)
and the string reconstruction functions
(src/typescript/bioinformatics/Reconstructor.ts).

JavaScript semantics are embedded explicitly:
* object property keys are strings, so a numeric node label is coerced
  to its decimal string when used as a key;
* an object is modelled as an insertion-ordered association list where
  assignment to an existing key updates it in place and assignment to a
  fresh key appends it;
* `new Set([...a, ...b])` deduplicates keeping the first occurrence;
* accessing a property of a missing key yields `undefined`, and spreading
  or calling a method on `undefined` throws `TypeError`.
-/

/-- Node labels: `type NodeType = string | number` (integers in practice). -/
inductive NodeType
  | str : String → NodeType
  | num : Int → NodeType
deriving DecidableEq, Repr

/-- JS property-key coercion: a number used as an object key becomes its
decimal string. -/
def NodeType.toKey : NodeType → String
  | .str s => s
  | .num n => toString n

/-- `type EdgeType = NodeType[]`. -/
abbrev EdgeType := List NodeType

/-- `type AdjacencyList = { [key: string]: EdgeType }`, as an
insertion-ordered association list with unique keys. -/
abbrev AdjacencyList := List (String × EdgeType)

/-- Property read: `obj[k]`, `none` when the key is absent (`undefined`). -/
def lookupAdj : AdjacencyList → String → Option EdgeType
  | [], _ => none
  | (k, v) :: rest, key => if key = k then some v else lookupAdj rest key

/-- Property write `obj[k] = v`: update in place if present, else append. -/
def setKey : AdjacencyList → String → EdgeType → AdjacencyList
  | [], key, v => [(key, v)]
  | (k, w) :: rest, key, v =>
      if key = k then (k, v) :: rest else (k, w) :: setKey rest key v

/-- `delete obj[k]`: remove the entry if present, otherwise no-op. -/
def eraseKey : AdjacencyList → String → AdjacencyList
  | [], _ => []
  | (k, w) :: rest, key =>
      if key = k then rest else (k, w) :: eraseKey rest key

/-- `Array.from(new Set(l))`: deduplicate keeping the first occurrence of
each element, in order (Set insertion order). -/
def jsSetDedup : List NodeType → List NodeType
  | [] => []
  | a :: l => a :: (jsSetDedup l).filter (fun x => x ≠ a)

/-- Runtime errors thrown by the embedded code. `typeError` stands for the
TypeError raised when spreading or calling a method on `undefined`;
`emptyInput` for the `Error` thrown by `genomePath` on an empty array. -/
inductive JsError
  | typeError
  | emptyInput
deriving DecidableEq, Repr

/-- `public adjacencyList: AdjacencyList = {}` -/
def emptyAdj : AdjacencyList := []

/-- `new Graph(...)`: the class declares no constructor, so any argument is
ignored and the field initializer leaves `adjacencyList = {}`. -/
def newGraph : Option AdjacencyList → AdjacencyList := fun _ => emptyAdj

/-- `addNode(node, edges = [])`: `this.adjacencyList[node] = edges`. -/
def addNode (g : AdjacencyList) (node : NodeType) (edges : EdgeType) :
    AdjacencyList :=
  setKey g node.toKey edges

/-- `removeNode(node)`: `delete this.adjacencyList[node]`. -/
def removeNode (g : AdjacencyList) (node : NodeType) : AdjacencyList :=
  eraseKey g node.toKey

/-- `addEdge(node, edges)`:
`this.adjacencyList[node] = Array.from(new Set([...this.adjacencyList[node], ...edges]))`.
Spreading `undefined` (missing node) throws TypeError. -/
def addEdge (g : AdjacencyList) (node : NodeType) (edges : EdgeType) :
    Except JsError AdjacencyList :=
  match lookupAdj g node.toKey with
  | none => .error .typeError
  | some cur => .ok (setKey g node.toKey (jsSetDedup (cur ++ edges)))

/-- `removeEdge(node, edges)`:
`this.adjacencyList[node] = this.adjacencyList[node].filter((e) => edges.indexOf(e) === -1)`.
Calling `.filter` on `undefined` (missing node) throws TypeError. -/
def removeEdge (g : AdjacencyList) (node : NodeType) (edges : EdgeType) :
    Except JsError AdjacencyList :=
  match lookupAdj g node.toKey with
  | none => .error .typeError
  | some cur => .ok (setKey g node.toKey (cur.filter (fun e => e ∉ edges)))

/-- The four mutating operations of the Graph class. -/
inductive GraphOp
  | addNode (node : NodeType) (edges : EdgeType)
  | removeNode (node : NodeType)
  | addEdge (node : NodeType) (edges : EdgeType)
  | removeEdge (node : NodeType) (edges : EdgeType)
deriving Repr

/-- Run one graph operation; the total ones are wrapped in `.ok`. -/
def applyOp (g : AdjacencyList) : GraphOp → Except JsError AdjacencyList
  | .addNode node edges => .ok (addNode g node edges)
  | .removeNode node => .ok (removeNode g node)
  | .addEdge node edges => addEdge g node edges
  | .removeEdge node edges => removeEdge g node edges

/-- The exact condition under which an operation succeeds in the source:
`addNode` and `removeNode` always do; `addEdge` and `removeEdge` succeed
precisely when the node's key is present. -/
def opSucceedsCond (g : AdjacencyList) : GraphOp → Prop
  | .addNode _ _ => True
  | .removeNode _ => True
  | .addEdge node _ => (lookupAdj g node.toKey).isSome = true
  | .removeEdge node _ => (lookupAdj g node.toKey).isSome = true

/-- An operation whose `addNode` edge argument is duplicate-free. -/
def goodOp : GraphOp → Prop
  | .addNode _ edges => edges.Nodup
  | _ => True

/-- States reachable from the empty graph by successful operations whose
`addNode` arguments are duplicate-free. -/
inductive ReachableGood : AdjacencyList → Prop
  | empty : ReachableGood emptyAdj
  | step (g g' : AdjacencyList) (op : GraphOp) : ReachableGood g →
      goodOp op → applyOp g op = .ok g' → ReachableGood g'

/-!
Reconstructor.ts. JavaScript strings are embedded as `List Char`;
`s.slice(i, i + k)` (with `0 ≤ i`) is `(s.drop i).take k`,
`s.slice(0, -1)` is `s.dropLast`, `s.slice(-1)` is `s.drop (s.length - 1)`
(the empty string when `s` is empty), and `s.endsWith(t)` is
`t.isSuffixOf s`.
-/

/-- `stringComposition(strand, k)`: pushes `strand.slice(i, i + k)` for
`i = 0` while `i <= strand.length - k`. When `k > strand.length` the loop
body never runs (JS number arithmetic goes negative), which the truncated
subtraction `strand.length + 1 - k = 0` reproduces. -/
def stringComposition (strand : List Char) (k : Nat) : List (List Char) :=
  (List.range (strand.length + 1 - k)).map fun i => (strand.drop i).take k

/-- The body of the `forEach` in `genomePath`: with the accumulated `out`,
`const overlap = strand.slice(0, -1); if (out.endsWith(overlap)) out += strand.slice(-1);`. -/
def genomePathStep (out strand : List Char) : List Char :=
  if strand.dropLast.isSuffixOf out then
    out ++ strand.drop (strand.length - 1)
  else out

/-- `genomePath(strands)`: throws on an empty array, otherwise
`let out = strands.shift()` (mutating the caller's array) followed by
`strands.forEach(...)`. The result pairs the returned string with the
state of the caller's array after the call. -/
def genomePath (strands : List (List Char)) :
    Except JsError (List Char × List (List Char)) :=
  match strands with
  | [] => .error .emptyInput
  | first :: rest => .ok (rest.foldl genomePathStep first, rest)

/-- The seed object of TestGraph.ts:
`{Node1: [], Node2: ['Node1'], 3: [], 4: [3, 'Node2'], 5: [3, 4]}`
(JS enumerates the integer-like keys first, in numeric order). -/
def testInitialValues : AdjacencyList :=
  [("3", []), ("4", [.num 3, .str "Node2"]), ("5", [.num 3, .num 4]),
   ("Node1", []), ("Node2", [.str "Node1"])]

/-- Well-formedness of an association list as a JS object: keys are
distinct. Every value reachable through the `Graph` class satisfies it. -/
def WFAdj (g : AdjacencyList) : Prop := (g.map Prod.fst).Nodup

theorem lookupAdj_setKey (g : AdjacencyList) (k : String) (v : EdgeType)
    (key : String) :
    lookupAdj (setKey g k v) key = if key = k then some v else lookupAdj g key := by
  induction g with
  | nil => simp [setKey, lookupAdj]
  | cons p rest ih =>
    obtain ⟨pk, pv⟩ := p
    by_cases hk : k = pk
    · subst hk
      by_cases hkey : key = k <;> simp [setKey, lookupAdj, hkey]
    · by_cases hkey : key = pk
      · subst hkey
        simp [setKey, lookupAdj, hk, Ne.symm hk]
      · simp [setKey, lookupAdj, hk, hkey, ih]

theorem setKey_setKey_same (g : AdjacencyList) (k : String)
    (v w : EdgeType) : setKey (setKey g k v) k w = setKey g k w := by
  induction g with
  | nil => simp [setKey]
  | cons p rest ih =>
    obtain ⟨pk, pv⟩ := p
    by_cases hk : k = pk <;> simp [setKey, hk, ih]

theorem mem_setKey {g : AdjacencyList} {k : String} {v : EdgeType}
    {p : String × EdgeType} (h : p ∈ setKey g k v) : p ∈ g ∨ p = (k, v) := by
  induction g with
  | nil => simp [setKey] at h; simp [h]
  | cons q rest ih =>
    obtain ⟨qk, qv⟩ := q
    by_cases hk : k = qk
    · subst hk
      simp [setKey] at h
      rcases h with h | h
      · exact Or.inr (by simp [h])
      · exact Or.inl (by simp [h])
    · simp [setKey, hk] at h
      rcases h with h | h
      · exact Or.inl (by simp [h])
      · rcases ih h with h2 | h2
        · exact Or.inl (by simp [h2])
        · exact Or.inr h2

theorem mem_eraseKey {g : AdjacencyList} {k : String}
    {p : String × EdgeType} (h : p ∈ eraseKey g k) : p ∈ g := by
  induction g with
  | nil => simp [eraseKey] at h
  | cons q rest ih =>
    obtain ⟨qk, qv⟩ := q
    by_cases hk : k = qk
    · subst hk
      simp [eraseKey] at h
      exact List.mem_cons_of_mem _ h
    · simp [eraseKey, hk] at h
      rcases h with h | h
      · simp [h]
      · exact List.mem_cons_of_mem _ (ih h)

theorem lookupAdj_mem {g : AdjacencyList} {k : String} {v : EdgeType}
    (h : lookupAdj g k = some v) : (k, v) ∈ g := by
  induction g with
  | nil => simp [lookupAdj] at h
  | cons q rest ih =>
    obtain ⟨qk, qv⟩ := q
    by_cases hk : k = qk
    · subst hk
      simp [lookupAdj] at h
      simp [h]
    · simp [lookupAdj, hk] at h
      exact List.mem_cons_of_mem _ (ih h)

theorem lookupAdj_eraseKey_ne (g : AdjacencyList) (k key : String)
    (hne : key ≠ k) : lookupAdj (eraseKey g k) key = lookupAdj g key := by
  induction g with
  | nil => simp [eraseKey]
  | cons q rest ih =>
    obtain ⟨qk, qv⟩ := q
    by_cases hk : k = qk
    · subst hk
      simp [eraseKey, lookupAdj, hne]
    · by_cases hkey : key = qk <;> simp [eraseKey, lookupAdj, hk, hkey, ih]

theorem lookupAdj_eq_none_iff (g : AdjacencyList) (k : String) :
    lookupAdj g k = none ↔ k ∉ g.map Prod.fst := by
  induction g with
  | nil => simp [lookupAdj]
  | cons q rest ih =>
    obtain ⟨qk, qv⟩ := q
    by_cases hk : k = qk <;> simp [lookupAdj, hk, ih]

theorem lookupAdj_eraseKey_self (g : AdjacencyList) (k : String)
    (hwf : WFAdj g) : lookupAdj (eraseKey g k) k = none := by
  induction g with
  | nil => simp [eraseKey, lookupAdj]
  | cons q rest ih =>
    obtain ⟨qk, qv⟩ := q
    unfold WFAdj at hwf
    simp only [List.map_cons, List.nodup_cons] at hwf
    by_cases hk : k = qk
    · subst hk
      simp only [eraseKey, if_pos rfl]
      exact (lookupAdj_eq_none_iff rest k).mpr hwf.1
    · simp [eraseKey, lookupAdj, hk]
      exact ih hwf.2

theorem eraseKey_of_lookupAdj_none (g : AdjacencyList) (k : String)
    (h : lookupAdj g k = none) : eraseKey g k = g := by
  induction g with
  | nil => rfl
  | cons q rest ih =>
    obtain ⟨qk, qv⟩ := q
    by_cases hk : k = qk
    · subst hk
      simp [lookupAdj] at h
    · simp [lookupAdj, hk] at h
      simp [eraseKey, hk, ih h]

theorem mem_jsSetDedup {x : NodeType} :
    ∀ (l : List NodeType), x ∈ jsSetDedup l → x ∈ l
  | a :: l, h => by
    rw [jsSetDedup] at h
    rcases List.mem_cons.mp h with h | h
    · simp [h]
    · exact List.mem_cons_of_mem _
        (mem_jsSetDedup _ (List.mem_of_mem_filter h))

theorem jsSetDedup_nodup : ∀ (l : List NodeType), (jsSetDedup l).Nodup
  | [] => by simp [jsSetDedup]
  | a :: l => by
    rw [jsSetDedup]
    refine List.nodup_cons.mpr ⟨fun hmem => ?_, ?_⟩
    · have := List.of_mem_filter hmem
      simp at this
    · exact List.Nodup.filter _ (jsSetDedup_nodup l)

/-- C1: the claim says `addEdge(label, edges)` fails with ReferenceError
whenever some target in `edges` is not a key of the adjacency list, and in
particular `addEdge("Y", ["Z"])` fails when `"Z"` was never added. The
source never inspects the targets: with `"Y"` present and `"Z"` absent the
call succeeds and stores the dangling target, and the only failure mode is
a TypeError from spreading `undefined` when the node itself is absent. -/
theorem c1_addEdge_target_not_checked :
    addEdge [("Y", [])] (NodeType.str "Y") [NodeType.str "Z"] =
      .ok [("Y", [NodeType.str "Z"])] ∧
    addEdge emptyAdj (NodeType.str "Y") [NodeType.str "Z"] =
      .error JsError.typeError :=
  ⟨rfl, rfl⟩

/-- C4 counterexample: the claim says removeEdge never fails, even when the
label is absent; but `removeEdge("A", [])` on the empty graph throws a
TypeError (calling `.filter` on `undefined`). -/
theorem c4_counterexample_removeEdge_throws :
    applyOp emptyAdj (GraphOp.removeEdge (NodeType.str "A") []) =
      .error JsError.typeError :=
  rfl

/-- C4 amended: addNode and removeNode are total; addEdge and removeEdge
succeed exactly when the node's key is present in the adjacency list (they
throw TypeError otherwise), independently of the edge targets — so
removeEdge with an existing label never fails, whatever targets it is
given, and addEdge never fails because of a missing target. -/
theorem c4_amended_failure_semantics (g : AdjacencyList) (op : GraphOp) :
    (applyOp g op).isOk = true ↔ opSucceedsCond g op := by
  cases op with
  | addNode node edges =>
    simp [applyOp, opSucceedsCond, Except.isOk, Except.toBool]
  | removeNode node =>
    simp [applyOp, opSucceedsCond, Except.isOk, Except.toBool]
  | addEdge node edges =>
    simp only [applyOp, opSucceedsCond, addEdge]
    cases h : lookupAdj g node.toKey <;>
      simp [Except.isOk, Except.toBool]
  | removeEdge node edges =>
    simp only [applyOp, opSucceedsCond, removeEdge]
    cases h : lookupAdj g node.toKey <;>
      simp [Except.isOk, Except.toBool]

/-- C5 counterexample: the claim says the string label `"4"` and the
integer label `4` create two different entries; in fact `addNode(4, ...)`
followed by `addNode("4", ...)` leaves a single entry keyed `"4"` holding
only the second edge list. -/
theorem c5_counterexample_coerced_keys_collide :
    addNode (addNode emptyAdj (NodeType.num 4) [NodeType.str "P"])
      (NodeType.str "4") [NodeType.str "Q"] = [("4", [NodeType.str "Q"])] :=
  rfl

/-- C5 amended: node labels are coerced to property-key strings, so the
integer label `n` and the string label `toString n` address the same
adjacency-list entry: adding the node under the numeric label and then
under the string label is the same as adding it under the string label
alone. -/
theorem c5_amended_key_coercion (g : AdjacencyList) (n : Int)
    (e1 e2 : EdgeType) :
    addNode (addNode g (NodeType.num n) e1) (NodeType.str (toString n)) e2 =
      addNode g (NodeType.str (toString n)) e2 := by
  unfold addNode NodeType.toKey
  exact setKey_setKey_same g (toString n) e1 e2

/-- C6 counterexample: the claim says addNode first installs an empty edge
set and then performs addEdge, hence deduplicates and fails with
ReferenceError on a missing target. In fact `addNode("Y", ["Z"])` on the
empty graph succeeds and stores the dangling target, and
`addNode("A", ["B", "B"])` stores the duplicate verbatim (addEdge's
Set-based deduplication is never invoked). -/
theorem c6_counterexample_addNode_plain_assignment :
    addNode emptyAdj (NodeType.str "Y") [NodeType.str "Z"] =
      [("Y", [NodeType.str "Z"])] ∧
    addNode (addNode emptyAdj (NodeType.str "B") []) (NodeType.str "A")
        [NodeType.str "B", NodeType.str "B"] =
      [("B", []), ("A", [NodeType.str "B", NodeType.str "B"])] :=
  ⟨rfl, rfl⟩

/-- C6 amended: addNode(label, edges) assigns the supplied edge list to the
label's entry verbatim and never fails: afterwards the entry holds exactly
that list, re-adding the label discards the prior edge set entirely, and
every other entry is untouched. -/
theorem c6_amended_addNode_overwrites (g : AdjacencyList) (node : NodeType)
    (e1 e2 : EdgeType) :
    lookupAdj (addNode g node e1) node.toKey = some e1 ∧
    addNode (addNode g node e1) node e2 = addNode g node e2 ∧
    ∀ key, key ≠ node.toKey →
      lookupAdj (addNode g node e1) key = lookupAdj g key := by
  refine ⟨?_, ?_, ?_⟩
  · rw [addNode, lookupAdj_setKey]
    simp
  · exact setKey_setKey_same g node.toKey e1 e2
  · intro key h
    rw [addNode, lookupAdj_setKey]
    simp [h]

/-- Witness for C6: re-adding is checked concretely by the frame part —
adding node "A" pointing at "X" leaves the existing entry of "X" intact. -/
theorem c6_amended_witness :
    lookupAdj (addNode [("X", [])] (NodeType.str "A") [NodeType.str "X"])
      "X" = some [] := by
  have h := (c6_amended_addNode_overwrites [("X", [])] (NodeType.str "A")
    [NodeType.str "X"] []).2.2 "X" (by decide)
  rw [h]
  rfl

/-- C7 counterexample: the claim says no edge collection ever contains the
same target twice after any operation from the empty graph; but a single
`addNode("A", ["B", "B"])` stores the duplicate pair verbatim. -/
theorem c7_counterexample_duplicates_stored :
    lookupAdj (addNode emptyAdj (NodeType.str "A")
        [NodeType.str "B", NodeType.str "B"]) "A" =
      some [NodeType.str "B", NodeType.str "B"] ∧
    ¬ ([NodeType.str "B", NodeType.str "B"] : EdgeType).Nodup :=
  ⟨rfl, by decide⟩

/-- C7 amended: starting from the empty graph, the no-duplicate invariant
is preserved by every successful operation provided each addNode is given
a duplicate-free edge list (addEdge deduplicates on its own; addNode
stores its argument verbatim and so can only be trusted with clean
input). -/
theorem c7_amended_nodup_invariant (g : AdjacencyList)
    (h : ReachableGood g) : ∀ p ∈ g, p.2.Nodup := by
  induction h with
  | empty => simp [emptyAdj]
  | step g g' op hreach hgood happ ih =>
    cases op with
    | addNode node edges =>
      simp only [applyOp, Except.ok.injEq] at happ
      intro p hp
      rw [← happ] at hp
      rcases mem_setKey hp with hm | hm
      · exact ih p hm
      · rw [hm]
        exact hgood
    | removeNode node =>
      simp only [applyOp, Except.ok.injEq] at happ
      intro p hp
      rw [← happ] at hp
      exact ih p (mem_eraseKey hp)
    | addEdge node edges =>
      simp only [applyOp, addEdge] at happ
      cases hl : lookupAdj g node.toKey with
      | none => rw [hl] at happ; exact absurd happ (by simp)
      | some cur =>
        rw [hl] at happ
        simp only [Except.ok.injEq] at happ
        intro p hp
        rw [← happ] at hp
        rcases mem_setKey hp with hm | hm
        · exact ih p hm
        · rw [hm]
          exact jsSetDedup_nodup _
    | removeEdge node edges =>
      simp only [applyOp, removeEdge] at happ
      cases hl : lookupAdj g node.toKey with
      | none => rw [hl] at happ; exact absurd happ (by simp)
      | some cur =>
        rw [hl] at happ
        simp only [Except.ok.injEq] at happ
        intro p hp
        rw [← happ] at hp
        rcases mem_setKey hp with hm | hm
        · exact ih p hm
        · rw [hm]
          exact List.Nodup.filter _ (ih (node.toKey, cur) (lookupAdj_mem hl))

/-- Witness for C7 amended: the state reached by one clean addNode is
covered by the invariant. -/
theorem c7_amended_witness : (([NodeType.str "B"] : EdgeType)).Nodup := by
  have hreach : ReachableGood (addNode emptyAdj (NodeType.str "A")
      [NodeType.str "B"]) :=
    ReachableGood.step emptyAdj _
      (GraphOp.addNode (NodeType.str "A") [NodeType.str "B"])
      ReachableGood.empty (by unfold goodOp; decide) rfl
  exact c7_amended_nodup_invariant _ hreach ("A", [NodeType.str "B"])
    (by decide)

/-- C8: the claim (and TestGraph.ts's first test) says the graph can be
pre-seeded from a caller-supplied adjacency list; but the class declares
no constructor, so `new Graph(initialValues)` ignores its argument and the
adjacency list stays `{}` — the test's `deepStrictEqual` assertion cannot
hold. -/
theorem c8_constructor_ignores_seed :
    newGraph (some testInitialValues) = emptyAdj ∧
    testInitialValues ≠ emptyAdj :=
  ⟨rfl, by decide⟩

/-- C10: removeNode deletes exactly the label's entry: afterwards the key
is absent; when the key was already absent the graph is unchanged (no-op,
no error); and every other entry — including one still holding a dangling
reference to the removed label — is untouched. -/
theorem c10_removeNode_frame (g : AdjacencyList) (node : NodeType)
    (hwf : WFAdj g) :
    lookupAdj (removeNode g node) node.toKey = none ∧
    (lookupAdj g node.toKey = none → removeNode g node = g) ∧
    ∀ key, key ≠ node.toKey →
      lookupAdj (removeNode g node) key = lookupAdj g key := by
  refine ⟨lookupAdj_eraseKey_self g node.toKey hwf,
    eraseKey_of_lookupAdj_none g node.toKey,
    fun key h => lookupAdj_eraseKey_ne g node.toKey key h⟩

/-- Witness for C10: removing node "B" from `{A: ["B"], B: []}` leaves A's
dangling reference to "B" in place. -/
theorem c10_removeNode_witness :
    lookupAdj (removeNode [("A", [NodeType.str "B"]), ("B", [])]
      (NodeType.str "B")) "A" = some [NodeType.str "B"] := by
  have h := c10_removeNode_frame [("A", [NodeType.str "B"]), ("B", [])]
    (NodeType.str "B") (by unfold WFAdj; decide)
  rw [h.2.2 "A" (by decide)]
  rfl

/-- C9: genomePath consumes exactly the head of the caller's array (the
`shift()` call): after the call the array holds the original list without
its first element, every remaining element unchanged. -/
theorem c9_genomePath_consumes_head (strands : List (List Char))
    (h : strands ≠ []) :
    ∃ out, genomePath strands = .ok (out, strands.tail) := by
  cases strands with
  | nil => exact absurd rfl h
  | cons first rest => exact ⟨rest.foldl genomePathStep first, rfl⟩

/-- Witness for C9 at a concrete two-element input. -/
theorem c9_genomePath_consumes_head_witness :
    ∃ out, genomePath [['A', 'B'], ['B', 'C']] =
      .ok (out, [['B', 'C']]) :=
  c9_genomePath_consumes_head [['A', 'B'], ['B', 'C']] (by decide)

theorem flatten_map_take_one (S : List Char) :
    ∀ (m j : Nat), j + m ≤ S.length →
      ((List.range' j m).map fun i => (S.drop i).take 1).flatten =
        (S.drop j).take m := by
  intro m
  induction m with
  | zero => simp
  | succ m ih =>
    intro j hjm
    rw [List.range'_succ]
    simp only [List.map_cons, List.flatten_cons]
    rw [ih (j + 1) (by omega)]
    have h1 : (S.drop j).take (1 + m) =
        (S.drop j).take 1 ++ ((S.drop j).drop 1).take m :=
      List.take_add _ 1 m
    rw [List.drop_drop] at h1
    have h2 : (1 : Nat) + m = m + 1 := by omega
    rw [h2] at h1
    rw [← h1]

theorem genomePathStep_next (S : List Char) (k j : Nat) (hk : 1 ≤ k)
    (h : j + 1 + k ≤ S.length) :
    genomePathStep (S.take (k + j)) ((S.drop (j + 1)).take k) =
      S.take (k + j + 1) := by
  have hlenfrag : ((S.drop (j + 1)).take k).length = k := by
    rw [List.length_take, List.length_drop]
    omega
  have hdropLast : ((S.drop (j + 1)).take k).dropLast =
      (S.drop (j + 1)).take (k - 1) := by
    rw [List.dropLast_eq_take, hlenfrag, List.take_take]
    congr 1
    omega
  have hsuffix : (S.drop (j + 1)).take (k - 1) <:+ S.take (k + j) := by
    refine ⟨S.take (j + 1), ?_⟩
    rw [← List.take_add]
    congr 1
    omega
  have hlast : ((S.drop (j + 1)).take k).drop (k - 1) =
      (S.drop (k + j)).take 1 := by
    rw [List.drop_take, List.drop_drop]
    congr 1
    · omega
    · congr 1
      omega
  unfold genomePathStep
  rw [hdropLast, if_pos (List.isSuffixOf_iff_suffix.mpr hsuffix),
    hlenfrag, hlast, ← List.take_add]

theorem genomePath_fold (S : List Char) (k : Nat) (hk : 1 ≤ k) :
    ∀ (m j : Nat), j + m + k ≤ S.length →
      ((List.range' (j + 1) m).map fun i => (S.drop i).take k).foldl
        genomePathStep (S.take (k + j)) = S.take (k + j + m) := by
  intro m
  induction m with
  | zero =>
    intro j h
    simp
  | succ m ih =>
    intro j h
    rw [List.range'_succ]
    simp only [List.map_cons, List.foldl_cons]
    rw [genomePathStep_next S k j hk (by omega)]
    have e1 : k + j + 1 = k + (j + 1) := by omega
    rw [e1, ih (j + 1) (by omega)]
    congr 1
    omega

/-- C2: round-trip law — for every strand S and k with 1 ≤ k ≤ len(S),
reconstructing the genome path from the k-mer composition returns S
exactly (and, the input having been consumed, the post-call array is the
composition without its head). -/
theorem c2_genomePath_stringComposition_roundtrip (S : List Char) (k : Nat)
    (hk1 : 1 ≤ k) (hk2 : k ≤ S.length) :
    genomePath (stringComposition S k) =
      .ok (S, (stringComposition S k).tail) := by
  have hcomp : stringComposition S k =
      (S.take k) ::
        ((List.range' 1 (S.length - k)).map fun i => (S.drop i).take k) := by
    rw [stringComposition, List.range_eq_range']
    have h1 : S.length + 1 - k = (S.length - k) + 1 := by omega
    rw [h1, List.range'_succ]
    simp
  rw [hcomp]
  simp only [genomePath, List.tail_cons]
  have hfold := genomePath_fold S k hk1 (S.length - k) 0 (by omega)
  simp only [Nat.add_zero, Nat.zero_add] at hfold
  have e2 : k + (S.length - k) = S.length := by omega
  rw [e2, List.take_length] at hfold
  rw [hfold]

/-- Witness for C2 at S = "CAAT", k = 2. -/
theorem c2_roundtrip_witness :
    genomePath (stringComposition ['C', 'A', 'A', 'T'] 2) =
      .ok (['C', 'A', 'A', 'T'], [['A', 'A'], ['A', 'T']]) := by
  rw [c2_genomePath_stringComposition_roundtrip ['C', 'A', 'A', 'T'] 2
    (by decide) (by decide)]
  rfl

/-- C3: for k ≥ 1, if k ≤ len(S) then stringComposition(S, k) has exactly
len(S) - k + 1 fragments, each of length k, the fragment at position i
being the substring starting at offset i; concatenating the first
character of each fragment and then the last k - 1 characters of the
final fragment reconstructs S. If k > len(S) the result is the empty
array, with no error. -/
theorem c3_stringComposition_spec (S : List Char) (k : Nat) (hk : 1 ≤ k) :
    (S.length < k → stringComposition S k = []) ∧
    (k ≤ S.length →
      (stringComposition S k).length = S.length - k + 1 ∧
      (∀ frag ∈ stringComposition S k, frag.length = k) ∧
      (∀ i, i < S.length - k + 1 →
        (stringComposition S k)[i]? = some ((S.drop i).take k)) ∧
      (List.map (fun f => f.take 1) (stringComposition S k)).flatten ++
        ((stringComposition S k).getLastD []).drop 1 = S) := by
  constructor
  · intro hlt
    rw [stringComposition]
    have h0 : S.length + 1 - k = 0 := by omega
    rw [h0]
    simp
  · intro hle
    have hlen1 : S.length + 1 - k = S.length - k + 1 := by omega
    refine ⟨?_, ?_, ?_, ?_⟩
    · rw [stringComposition]
      simp [hlen1]
    · intro frag hfrag
      rw [stringComposition] at hfrag
      simp only [List.mem_map, List.mem_range] at hfrag
      obtain ⟨i, hi, rfl⟩ := hfrag
      rw [List.length_take, List.length_drop]
      omega
    · intro i hi
      rw [stringComposition, List.getElem?_map,
        List.getElem?_range (by omega)]
      rfl
    · have hcomp1 : ((fun f => List.take 1 f) ∘ fun i => (S.drop i).take k) =
          fun i => (S.drop i).take 1 := by
        funext i
        simp only [Function.comp_apply, List.take_take]
        congr 1
        omega
      have hfirsts :
          (List.map (fun f => f.take 1) (stringComposition S k)).flatten =
            S.take (S.length - k + 1) := by
        rw [stringComposition, List.map_map, hcomp1, List.range_eq_range',
          hlen1, flatten_map_take_one S (S.length - k + 1) 0 (by omega),
          List.drop_zero]
      have hlast : (stringComposition S k).getLastD [] =
          (S.drop (S.length - k)).take k := by
        rw [stringComposition, List.getLastD_eq_getLast?,
          List.getLast?_eq_getElem?, List.length_map, List.length_range,
          hlen1]
        have hidx : S.length - k + 1 - 1 = S.length - k := by omega
        rw [hidx, List.getElem?_map, List.getElem?_range (by omega)]
        rfl
      rw [hfirsts, hlast]
      have hdrop1 : ((S.drop (S.length - k)).take k).drop 1 =
          (S.drop (S.length - k + 1)).take (k - 1) := by
        rw [List.drop_take, List.drop_drop]
      rw [hdrop1, ← List.take_add]
      have hsum : S.length - k + 1 + (k - 1) = S.length := by omega
      rw [hsum, List.take_length]

/-- Witness for C3: the short-strand case at k = 3 over "AB", and the
fragment count at k = 2 over "ABC". -/
theorem c3_stringComposition_spec_witness :
    stringComposition ['A', 'B'] 3 = [] ∧
    (stringComposition ['A', 'B', 'C'] 2).length = 2 :=
  ⟨(c3_stringComposition_spec ['A', 'B'] 3 (by decide)).1 (by decide),
   ((c3_stringComposition_spec ['A', 'B', 'C'] 2 (by decide)).2
     (by decide)).1⟩
